import Mathlib

/-!
Verification of the `iota` document pipeline scripts.

This file gives a shallow embedding of the pure text-processing core of
`backend/scripts/chunk_text.py`, `backend/scripts/extract_text.py` and
`backend/scripts/build_final_texts.py`, and proves (or refutes) the
specification claims about them.

Modelling conventions:
* Python strings are Lean `String`s; the string helpers used by the scripts
  (`str.split`, `str.strip`, `str.isupper`, `str.isalpha`, the two fixed
  regular expressions) are implemented here over `List Char` so that all
  definitions are executable and kernel-reducible.
* The `tiktoken` tokenizer is an external library, so the token counter is a
  parameter `tc : String → Nat` of the chunking functions; concrete runs use
  simple concrete counters defined below.
* Unicode NFKC normalisation (`unicodedata.normalize`) is external; on the
  texts considered here it is the identity and is modelled as such.
* Python `float` threshold comparisons (`> 0.5` page threshold,
  `> 0.3` language ratio) are modelled exactly: `count > n * 0.5` for integer
  `count` holds iff `2 * count > n`, and the `0.3` comparison is modelled over
  `ℚ`; both are exact at every input appearing in the development.
-/

/-! ### Python string primitives, modelled over `List Char` -/

/-- Whitespace for Python's `str.strip` / `str.split()` / regex `\s`
(modelled over the ASCII whitespace characters, which are the only
whitespace characters appearing in the pipeline's texts). -/
def pyIsSpace (c : Char) : Bool :=
  c = ' ' || c = '\t' || c = '\n' || c = '\r' || c = '\x0b' || c = '\x0c'

/-- ASCII upper-case letter. -/
def isUpperA (c : Char) : Bool := 'A' ≤ c && c ≤ 'Z'

/-- ASCII lower-case letter. -/
def isLowerA (c : Char) : Bool := 'a' ≤ c && c ≤ 'z'

/-- ASCII digit. -/
def isDigitA (c : Char) : Bool := '0' ≤ c && c ≤ '9'

/-- Python's `str.isalpha` (Unicode category L*), modelled over the Basic
Latin and Arabic blocks, the only blocks exercised by the pipeline: ASCII
letters, and the letter subranges of U+0600–U+06FF (the Arabic-block
codepoints of category Lo/Lm; digits, points, punctuation and combining
marks of that block are not alphabetic). -/
def pyIsAlpha (c : Char) : Bool :=
  isUpperA c || isLowerA c ||
  ('ؠ' ≤ c && c ≤ 'ي') ||
  ('ٮ' ≤ c && c ≤ 'ٯ') ||
  ('ٱ' ≤ c && c ≤ 'ۓ') ||
  c = 'ە' ||
  ('ۥ' ≤ c && c ≤ 'ۦ') ||
  ('ۮ' ≤ c && c ≤ 'ۯ') ||
  ('ۺ' ≤ c && c ≤ 'ۼ') ||
  c = 'ۿ'

/-- Python's `str.isupper`: at least one cased character and every cased
character upper-case (cased = ASCII letter in the modelled blocks; Arabic
letters are uncased). -/
def pyIsUpper (s : String) : Bool :=
  s.data.any (fun c => isUpperA c || isLowerA c) &&
  s.data.all (fun c => !isLowerA c)

/-- Python's `str.strip()` on the underlying character list. -/
def stripL (cs : List Char) : List Char :=
  ((cs.dropWhile pyIsSpace).reverse.dropWhile pyIsSpace).reverse

/-- Python's `str.strip()`. -/
def pyStrip (s : String) : String := String.mk (stripL s.data)

/-- `beginsWith pat cs` holds when `pat` is an initial segment of `cs`. -/
def beginsWith : List Char → List Char → Bool
  | [], _ => true
  | _ :: _, [] => false
  | a :: as, b :: bs => a = b && beginsWith as bs

/-- Auxiliary scanner for `str.split(sep)` with non-empty separator `sep`:
leftmost, non-overlapping matches, separators removed.  Structural
recursion on a fuel argument (every step consumes at least one character,
so fuel equal to the input length is always sufficient). -/
def splitOnAux (sep : List Char) : Nat → List Char → List Char → List (List Char)
  | 0, cur, cs => [cur.reverse ++ cs]
  | _ + 1, cur, [] => [cur.reverse]
  | fuel + 1, cur, c :: rest =>
    if beginsWith sep (c :: rest) then
      cur.reverse :: splitOnAux sep fuel [] (rest.drop (sep.length - 1))
    else
      splitOnAux sep fuel (c :: cur) rest

/-- Python's `s.split(sep)` for a fixed non-empty separator. -/
def pySplit (s sep : String) : List String :=
  (splitOnAux sep.data s.data.length [] s.data).map String.mk

/-- The line list of a text: Python's `text.split("\n")`. -/
def pyLines (text : String) : List String := pySplit text "\n"

/-- `" ".join(l)`. -/
def joinSp (l : List String) : String :=
  String.mk (List.intercalate [' '] (l.map String.data))

/-- `"\n".join(l)`. -/
def joinNl (l : List String) : String :=
  String.mk (List.intercalate ['\n'] (l.map String.data))

/-- `"\n\n".join(l)`. -/
def joinNN (l : List String) : String :=
  String.mk (List.intercalate ['\n', '\n'] (l.map String.data))

/-- Auxiliary scanner for Python's whitespace `str.split()` (fuel-based,
see `splitOnAux`). -/
def wsSplitAux : Nat → List Char → List (List Char)
  | 0, _ => []
  | _ + 1, [] => []
  | fuel + 1, c :: rest =>
    if pyIsSpace c then wsSplitAux fuel rest
    else (c :: rest.takeWhile (fun d => !pyIsSpace d)) ::
      wsSplitAux fuel (rest.dropWhile (fun d => !pyIsSpace d))

/-- Python's argument-free `str.split()`: maximal runs of non-whitespace. -/
def wsSplit (s : String) : List String :=
  (wsSplitAux s.data.length s.data).map String.mk

/-! ### `chunk_text.py`: language detection -/

/-- `normalize_text` applies Unicode NFKC normalisation via the external
`unicodedata` module; on the documents of this pipeline (which are already
NFKC-normal) it is the identity, and it is modelled as the identity. -/
def normalizeText (text : String) : String := text

/-- Number of characters of `text` lying in the primary Arabic block
U+0600–U+06FF (`sum(1 for c in text if "؀" <= c <= "ۿ")`). -/
def arabicBlockCount (text : String) : Nat :=
  (text.data.filter (fun c => '؀' ≤ c && c ≤ 'ۿ')).length

/-- Number of alphabetic characters of `text`
(`len([c for c in text if c.isalpha()])`). -/
def alphaCount (text : String) : Nat :=
  (text.data.filter pyIsAlpha).length

/-- `detect_language` (`chunk_text.py`): count characters in U+0600–U+06FF,
count alphabetic characters, return `"ar"` when the ratio exceeds `0.3`.
The float comparison `arabic_chars / total_chars > 0.3` is exact for every
count pair realisable here and is modelled by the equivalent integer
comparison `10 * arabic_chars > 3 * total_chars`. -/
def detectLanguage (text : String) : String :=
  if text = "" then "en"
  else
    let arabicChars := arabicBlockCount text
    let totalChars := alphaCount text
    if totalChars = 0 then "en"
    else if 10 * arabicChars > 3 * totalChars then "ar" else "en"

/-- The language detector as the specification describes it: the numerator
counts only the *alphabetic* characters lying in the Arabic block. Defined
purely for comparison with `detectLanguage`. -/
def detectLanguageSpec (text : String) : String :=
  if text = "" then "en"
  else
    let arabicChars :=
      (text.data.filter (fun c => pyIsAlpha c && '؀' ≤ c && c ≤ 'ۿ')).length
    let totalChars := alphaCount text
    if totalChars = 0 then "en"
    else if 10 * arabicChars > 3 * totalChars then "ar" else "en"


/-! ### `chunk_text.py`: headings, sections, splitting -/

/-- Constants of `chunk_text.py`. -/
def TARGET_TOKENS : Nat := 500

/-- Hard ceiling on a packed chunk's running token total. -/
def MAX_TOKENS : Nat := 700

/-- Minimum token count for a buffer to be emitted as a chunk. -/
def MIN_TOKENS : Nat := 150

/-- Number of trailing buffer units re-seeded as overlap after an emission. -/
def OVERLAP_SENTENCES : Nat := 2

/-- Rule 1 of `detect_headings`: a stripped line of fewer than 60 characters
whose neighbours on both sides exist and are blank after stripping. -/
def headingRule1 (lines : List String) (i : Nat) : Bool :=
  (pyStrip (lines.getD i "")).length < 60 &&
  (decide (0 < i) && pyStrip (lines.getD (i - 1) "") = "") &&
  (decide (i < lines.length - 1) && pyStrip (lines.getD (i + 1) "") = "")

/-- Rule 2 of `detect_headings`: the regex `^[\d\.\s]+[A-Z]` matched against
the stripped line (one or more digits, periods or whitespace characters
followed by an upper-case letter; the character classes are disjoint from
`[A-Z]`, so greedy matching is exact). -/
def headingRule2 (lines : List String) (i : Nat) : Bool :=
  let cs := (pyStrip (lines.getD i "")).data
  let cls := fun c => isDigitA c || c = '.' || pyIsSpace c
  !(cs.takeWhile cls).isEmpty &&
    (match cs.dropWhile cls with
     | c :: _ => isUpperA c
     | [] => false)

/-- Rule 3 of `detect_headings`: the stripped line is `isupper()` and has
fewer than 100 characters. -/
def headingRule3 (lines : List String) (i : Nat) : Bool :=
  pyIsUpper (pyStrip (lines.getD i "")) &&
  (pyStrip (lines.getD i "")).length < 100

/-- The indices appended for line `i` by one iteration of the
`detect_headings` loop: nothing for a blank line, and one copy of `i` for
each of the three rules that fires. -/
def headingMarks (lines : List String) (i : Nat) : List Nat :=
  if pyStrip (lines.getD i "") = "" then []
  else
    (if headingRule1 lines i then [i] else []) ++
    (if headingRule2 lines i then [i] else []) ++
    (if headingRule3 lines i then [i] else [])

/-- `detect_headings` (`chunk_text.py`): scan the lines in order, appending
the line index once per satisfied rule. -/
def detectHeadings (text : String) : List Nat :=
  let lines := pyLines text
  (List.range lines.length).flatMap (headingMarks lines)

/-- The `(start, end)` line ranges of the sections built by `chunk_text`
from the heading index list: section `i` spans from heading index `i`
(inclusive) to heading index `i+1` (exclusive), the last section to `n`. -/
def sectionRanges : List Nat → Nat → List (Nat × Nat)
  | [], _ => []
  | [a], n => [(a, n)]
  | a :: b :: t, n => (a, b) :: sectionRanges (b :: t) n

/-- The `(section_heading, section_text)` list built by `chunk_text`
(lines 84–93): when headings were detected, one section per heading index,
its text the newline-join of its line range and its heading the stripped
first line; with no headings a single section with empty heading holding
the whole text. -/
def buildSections (text : String) : List (String × String) :=
  let lines := pyLines text
  let hs := detectHeadings text
  if hs ≠ [] then
    (sectionRanges hs lines.length).map (fun r =>
      (pyStrip (lines.getD r.1 ""), joinNl ((lines.drop r.1).take (r.2 - r.1))))
  else [("", text)]

/-- `split_paragraphs`: split on `"\n\n"`, strip, drop blanks. -/
def splitParagraphs (text : String) : List String :=
  ((pySplit text "\n\n").map pyStrip).filter (fun p => p ≠ "")

/-- Auxiliary scanner for `re.split(r"[.!?]\s+", text)` (resp. the Arabic
variant): cut at every punctuation character followed by at least one
whitespace character, consuming the punctuation and the whitespace run. -/
def reSplitAux (punct : List Char) : Nat → List Char → List Char → List (List Char)
  | 0, cur, cs => [cur.reverse ++ cs]
  | _ + 1, cur, [] => [cur.reverse]
  | fuel + 1, cur, c :: rest =>
    if punct.contains c && (match rest with | d :: _ => pyIsSpace d | [] => false) then
      cur.reverse :: reSplitAux punct fuel [] (rest.dropWhile pyIsSpace)
    else
      reSplitAux punct fuel (c :: cur) rest

/-- `split_sentences`: regex-split on sentence punctuation (language
dependent), strip, drop blanks. -/
def splitSentences (text language : String) : List String :=
  let pieces :=
    if language = "ar" then
      (reSplitAux ['.', '!', '؟'] text.data.length [] text.data).map String.mk
    else
      (reSplitAux ['.', '!', '?'] text.data.length [] text.data).map String.mk
  (pieces.map pyStrip).filter (fun s => s ≠ "")

/-! ### `chunk_text.py`: packing -/

/-- A chunk record as produced by `create_chunk`. -/
structure Chunk where
  filename : String
  chunkIndex : Nat
  text : String
  tokenCount : Nat
  sectionHeading : String
  language : String
deriving DecidableEq

/-- `create_chunk` (`chunk_text.py`): the token count is taken of the body
before the metadata stamp is prepended.  The unused `sentences` parameter
of the Python function is omitted. -/
def createChunk (tc : String → Nat) (text filename : String) (chunkIndex : Nat)
    (sectionHeading language : String) : Chunk :=
  let tokenCount := tc text
  let stamp :=
    "[Document: " ++ filename ++ "]\n" ++
    (if sectionHeading ≠ "" then "[Section: " ++ sectionHeading ++ "]\n" else "") ++
    "[Chunk Index: " ++ toString chunkIndex ++ "]\n\n"
  { filename := filename, chunkIndex := chunkIndex, text := stamp ++ text,
    tokenCount := tokenCount, sectionHeading := sectionHeading,
    language := language }

/-- One emitted chunk together with ghost provenance data used only in
theorem statements: the buffer it was joined from, and whether that buffer
was tainted (seeded with overlap sentences of a previous chunk, or had
survived an under-`MIN` overflow in the paragraph branch). -/
structure Emit where
  chunk : Chunk
  buf : List String
  tainted : Bool
deriving DecidableEq

/-- The state of the packing loop of `chunk_text`: the current buffer and
its running token total, the chunks emitted so far, and the global chunk
index.  `tainted` is ghost instrumentation (see `Emit`); it is written by
the steps but never read, so it does not influence any output. -/
structure PackSt where
  buffer : List String
  tokens : Nat
  emits : List Emit
  idx : Nat
  tainted : Bool
deriving DecidableEq

/-- `chunk_buffer[-OVERLAP_SENTENCES:]`: the last `n` elements. -/
def lastN (n : Nat) (l : List String) : List String := l.drop (l.length - n)

/-- One iteration of the sentence loop of `chunk_text` (lines 109–126):
if appending the sentence would exceed `MAX_TOKENS` and the buffer is
non-empty, either emit the joined buffer (when it reaches `MIN_TOKENS`)
and re-seed with the last two units, or discard the buffer entirely;
then append the sentence. -/
def sentStep (tc : String → Nat) (filename heading language : String)
    (s : PackSt) (sent : String) : PackSt :=
  let st := tc sent
  let s1 :=
    if s.tokens + st > MAX_TOKENS ∧ s.buffer ≠ [] then
      let ct := joinSp s.buffer
      if tc ct ≥ MIN_TOKENS then
        let ov := lastN OVERLAP_SENTENCES s.buffer
        { buffer := ov, tokens := (ov.map tc).sum,
          emits := s.emits ++
            [⟨createChunk tc ct filename s.idx heading language, s.buffer, s.tainted⟩],
          idx := s.idx + 1, tainted := true }
      else
        { s with buffer := [], tokens := 0, tainted := false }
    else s
  { s1 with buffer := s1.buffer ++ [sent], tokens := s1.tokens + st }

/-- One iteration of the paragraph loop of `chunk_text` (lines 104–141):
an oversized paragraph is exploded into sentences and fed through
`sentStep`; otherwise the overflow check runs — note that unlike the
sentence branch it has no `else`: an under-`MIN` buffer is left in place
(only the ghost `tainted` flag records this) — and the paragraph is
appended. -/
def paraStep (tc : String → Nat) (filename heading language : String)
    (s : PackSt) (para : String) : PackSt :=
  let pt := tc para
  if pt > MAX_TOKENS then
    (splitSentences para language).foldl (sentStep tc filename heading language) s
  else
    let s1 :=
      if s.tokens + pt > MAX_TOKENS ∧ s.buffer ≠ [] then
        let ct := joinSp s.buffer
        if tc ct ≥ MIN_TOKENS then
          let ov := lastN OVERLAP_SENTENCES s.buffer
          { buffer := ov, tokens := (ov.map tc).sum,
            emits := s.emits ++
              [⟨createChunk tc ct filename s.idx heading language, s.buffer, s.tainted⟩],
            idx := s.idx + 1, tainted := true }
        else
          { s with tainted := true }
      else s
    { s1 with buffer := s1.buffer ++ [para], tokens := s1.tokens + pt }

/-- The end-of-section flush of `chunk_text` (lines 143–151): a non-empty
final buffer is emitted only when its joined text reaches `MIN_TOKENS`. -/
def flushSt (tc : String → Nat) (filename heading language : String)
    (s : PackSt) : PackSt :=
  if s.buffer ≠ [] then
    let ct := joinSp s.buffer
    if tc ct ≥ MIN_TOKENS then
      { s with
        emits := s.emits ++
          [⟨createChunk tc ct filename s.idx heading language, s.buffer, s.tainted⟩],
        idx := s.idx + 1 }
    else s
  else s

/-- Process one section of `chunk_text`: start from a fresh buffer (chunks
and the chunk index persist across sections), fold the paragraphs, flush. -/
def sectionStep (tc : String → Nat) (filename language : String)
    (acc : List Emit × Nat) (sec : String × String) : List Emit × Nat :=
  let paras := splitParagraphs sec.2
  let s0 : PackSt := ⟨[], 0, acc.1, acc.2, false⟩
  let s1 := paras.foldl (paraStep tc filename sec.1 language) s0
  let s2 := flushSt tc filename sec.1 language s1
  (s2.emits, s2.idx)

/-- `chunk_text` with ghost provenance: normalise, detect the language once
for the whole document, build the sections, and pack each section. -/
def chunkTextI (tc : String → Nat) (text filename : String) : List Emit :=
  let t := normalizeText text
  let language := detectLanguage t
  ((buildSections t).foldl (sectionStep tc filename language) ([], 0)).1

/-- `chunk_text` (`chunk_text.py`): the list of chunk records of a
document, with the ghost provenance erased. -/
def chunkText (tc : String → Nat) (text filename : String) : List Chunk :=
  (chunkTextI tc text filename).map Emit.chunk

/-- Number of occurrences of the letter `a`: a concrete additive token
counter used for concrete runs. -/
def countA (s : String) : Nat := (s.data.filter (fun c => c = 'a')).length

/-- A concrete token counter: 100 tokens per letter `a`. -/
def tcA (s : String) : Nat := 100 * countA s

/-- A concrete token counter: 110 tokens per letter `a`. -/
def tcB (s : String) : Nat := 110 * countA s


/-! ### `extract_text.py`: boilerplate removal -/

/-- Increment the count of key `k` in the ordered association list `d`
(Python dict `line_counts`). -/
def bump : List (String × Nat) → String → List (String × Nat)
  | [], k => [(k, 1)]
  | (k', v) :: rest, k =>
    if k' = k then (k', v + 1) :: rest else (k', v) :: bump rest k

/-- The stripped lines of one page (`page_text.split('\n')`, stripped). -/
def pageLines (page : String) : List String := (pySplit page "\n").map pyStrip

/-- The `line_counts` dict of `clean_text`: every stripped line of every
page of fewer than 50 characters, with its number of occurrences. -/
def lineCounts (pages : List String) : List (String × Nat) :=
  pages.foldl
    (fun d page =>
      (pageLines page).foldl
        (fun d line => if line.length < 50 then bump d line else d) d)
    []

/-- Membership of a stripped line in the `headers_footers` set of
`clean_text`: its count exceeds `len(page_texts) * 0.5`.  The float
threshold is exact: `count > n * 0.5` iff `2 * count > n`. -/
def isHeaderFooter (pages : List String) (line : String) : Bool :=
  match (lineCounts pages).lookup line with
  | some count => 2 * count > pages.length
  | none => false

/-- The regex `^(Page\s*\d+|صفحة\s*\d+)$` with `re.IGNORECASE`: a page
number line.  `\d` additionally covers the Arabic-Indic digits. -/
def isPageNumber (line : String) : Bool :=
  let isDigitRe := fun c => isDigitA c || ('٠' ≤ c && c ≤ '٩') || ('۰' ≤ c && c ≤ '۹')
  let lower := fun c : Char => if isUpperA c then Char.ofNat (c.toNat + 32) else c
  let tail := fun (w : List Char) (cs : List Char) =>
    beginsWith w (cs.map lower) &&
      (let rest := (cs.map lower).drop w.length
       let ds := rest.dropWhile pyIsSpace
       !ds.isEmpty && ds.all isDigitRe)
  tail "page".data line.data || tail "صفحة".data line.data

/-- The per-line filter of `clean_text` (lines 82–91): skip
headers/footers, skip page-number lines, keep non-empty lines. -/
def keepLine (pages : List String) (line : String) : Bool :=
  if isHeaderFooter pages line then false
  else if isPageNumber line then false
  else line ≠ ""

/-- Clean one page: strip each line, apply the line filter, re-join. -/
def cleanPage (pages : List String) (page : String) : String :=
  joinNl ((pageLines page).filter (keepLine pages))

/-- Collapse runs of spaces to a single space (`re.sub(r' +', ' ', ·)`);
fuel-based scanner, see `splitOnAux`. -/
def squeezeSpacesAux : Nat → List Char → List Char
  | 0, cs => cs
  | _ + 1, [] => []
  | fuel + 1, c :: rest =>
    if c = ' ' then ' ' :: squeezeSpacesAux fuel (rest.dropWhile (fun d => d = ' '))
    else c :: squeezeSpacesAux fuel rest

/-- Collapse runs of three or more newlines to exactly two
(`re.sub(r'\n\s*\n\s*\n+', '\n\n', ·)`).  On the texts this step receives
(stripped lines joined by newlines) every whitespace run between lines
consists of newlines only, where the regex consumes a maximal run of three
or more newlines; it is modelled as that run-collapsing. -/
def collapseNewlinesAux : Nat → List Char → List Char
  | 0, cs => cs
  | _ + 1, [] => []
  | fuel + 1, c :: rest =>
    if c = '\n' then
      let run := rest.takeWhile (fun d => d = '\n')
      let rest' := rest.dropWhile (fun d => d = '\n')
      (if run.length + 1 ≥ 3 then ['\n', '\n'] else c :: run) ++
        collapseNewlinesAux fuel rest'
    else c :: collapseNewlinesAux fuel rest

/-- `clean_text` (`extract_text.py`): remove boilerplate and page-number
lines, join pages with blank lines, normalise whitespace. -/
def cleanText (pages : List String) : String :=
  let cleanedPages := pages.map (cleanPage pages)
  let fullText := joinNN cleanedPages
  let fullText := String.mk (squeezeSpacesAux fullText.data.length fullText.data)
  String.mk (collapseNewlinesAux fullText.data.length fullText.data)

/-- Whether a stripped line occurs on a page. -/
def lineOnPage (line page : String) : Bool := (pageLines page).contains line

/-- Boilerplate as the specification describes it: page-frequency — the
number of *pages* on which the line occurs — exceeding half the page
count.  Defined purely for comparison with `isHeaderFooter`. -/
def isHeaderFooterSpec (pages : List String) (line : String) : Bool :=
  line.length < 50 && 2 * (pages.filter (lineOnPage line)).length > pages.length

/-- `clean_text` with the specification's page-frequency boilerplate rule,
for comparison with `cleanText`. -/
def cleanTextSpec (pages : List String) : String :=
  let keep := fun line =>
    if isHeaderFooterSpec pages line then false
    else if isPageNumber line then false
    else line ≠ ""
  let cleanedPages := pages.map (fun page => joinNl ((pageLines page).filter keep))
  let fullText := joinNN cleanedPages
  let fullText := String.mk (squeezeSpacesAux fullText.data.length fullText.data)
  String.mk (collapseNewlinesAux fullText.data.length fullText.data)

/-- Total number of occurrences of a stripped line across all pages
(repeats within a page each counted). -/
def occTotal (pages : List String) (line : String) : Nat :=
  (pages.flatMap pageLines).count line


/-! ### `build_final_texts.py` -/

/-- The three extraction strategies, in declaration order. -/
inductive Method
  | method1
  | method2
  | method3
deriving DecidableEq

/-- `count_words`: `len(text.split()) if text else 0`. -/
def countWords (text : String) : Nat :=
  if text = "" then 0 else (wsSplit text).length

/-- Selection for one document (`build_final_texts`, lines 44–61): score
the three candidate texts by word count, take Python's `max` over the
insertion-ordered candidates — which keeps the earliest candidate on ties —
and skip the document (return `none`) when the best word count is zero. -/
def selectBest (t1 t2 t3 : String) : Option (Method × String) :=
  let w1 := countWords t1
  let w2 := countWords t2
  let w3 := countWords t3
  let best :=
    [(Method.method2, t2, w2), (Method.method3, t3, w3)].foldl
      (fun b x => if x.2.2 > b.2.2 then x else b) (Method.method1, t1, w1)
  if best.2.2 = 0 then none else some (best.1, best.2.1)

/-- The batch loop of `build_final_texts`: one entry per document that was
not skipped, in order. -/
def buildFinalTexts (docs : List (String × String × String × String)) :
    List (String × Method × String) :=
  docs.foldl
    (fun acc d =>
      match selectBest d.2.1 d.2.2.1 d.2.2.2 with
      | some r => acc ++ [(d.1, r)]
      | none => acc)
    []

/-! ### Batch entry points (`extract_text.main`, `chunk_text.main`) -/

/-- The batch loop of `extract_text.main` (lines 118–147), with each
document's extraction outcome abstracted as an `Except` value: processed
documents yield `(name, cleaned text)` output files in order; on the first
failing document the handler prints and re-raises (`raise  # Stop on first
error`), so the loop aborts — the failing document's name is returned and
no later document is processed. -/
def extractBatch :
    List (String × Except String (List String)) →
    List (String × String) × Option String
  | [] => ([], none)
  | (name, Except.error _) :: _ => ([], some name)
  | (name, Except.ok pages) :: rest =>
    let r := extractBatch rest
    ((name, cleanText pages) :: r.1, r.2)

/-- The batch loop of `chunk_text.main` (lines 184–196), with each
document's file-read outcome abstracted as an `Except` value: a failing
document is reported and skipped, and the loop continues with the
remaining documents. -/
def chunkBatch (tc : String → Nat)
    (docs : List (String × Except String String)) : List Chunk :=
  docs.foldl
    (fun acc d =>
      match d.2 with
      | Except.ok text => acc ++ chunkText tc text d.1
      | Except.error _ => acc)
    []


/-! ### Predicates used by the theorems -/

/-- The two facts every emitted chunk satisfies regardless of the token
counter: its token count passed the `MIN_TOKENS` gate, and its language is
the document-level language tag. -/
def EmitBasic (lg : String) (e : Emit) : Prop :=
  MIN_TOKENS ≤ e.chunk.tokenCount ∧ e.chunk.language = lg

/-- Additivity of a token counter over space-joins: the token count of a
joined non-empty buffer is the sum of the unit counts (the property the
running total `chunk_tokens` silently assumes of the tokenizer). -/
def TcAdd (tc : String → Nat) : Prop :=
  ∀ l : List String, l ≠ [] → tc (joinSp l) = (l.map tc).sum

/-- The ceiling property an emitted chunk satisfies: within `MAX_TOKENS`,
or a single unit that alone exceeds the ceiling, or packed from a tainted
buffer (overlap-seeded or carried past an under-`MIN` overflow). -/
def EmitBound (tc : String → Nat) (e : Emit) : Prop :=
  e.chunk.tokenCount ≤ MAX_TOKENS ∨
  (∃ u, e.buf = [u] ∧ MAX_TOKENS < tc u) ∨ e.tainted = true

/-- Packing-state invariant for the ceiling property. -/
def PackInv (tc : String → Nat) (s : PackSt) : Prop :=
  s.tokens = (s.buffer.map tc).sum ∧
  (s.tainted = false → (s.buffer.map tc).sum ≤ MAX_TOKENS ∨ s.buffer.length ≤ 1) ∧
  ∀ e ∈ s.emits, EmitBound tc e

/-- Number of heading rules that fire on line `i` (zero for a blank line). -/
def rulesFired (lines : List String) (i : Nat) : Nat :=
  if pyStrip (lines.getD i "") = "" then 0
  else
    (if headingRule1 lines i then 1 else 0) +
    (if headingRule2 lines i then 1 else 0) +
    (if headingRule3 lines i then 1 else 0)

/-- The count recorded for a key, zero when absent. -/
def lookupNat (d : List (String × Nat)) (k : String) : Nat :=
  ((d.lookup k).getD 0)

/-- One `line_counts` update: count stripped lines of fewer than 50
characters. -/
def stepLC (d : List (String × Nat)) (line : String) : List (String × Nat) :=
  if line.length < 50 then bump d line else d

/-! ### Helper lemmas: fold preservation and basic packing invariants -/

theorem foldl_preserve {α σ : Type _} (f : σ → α → σ) (I : σ → Prop)
    (hf : ∀ s a, I s → I (f s a)) :
    ∀ (l : List α) (s : σ), I s → I (l.foldl f s)
  | [], _, hs => hs
  | a :: l, s, hs => foldl_preserve f I hf l (f s a) (hf s a hs)

theorem createChunk_tokenCount (tc : String → Nat) (t fn : String) (i : Nat)
    (hd lg : String) : (createChunk tc t fn i hd lg).tokenCount = tc t := rfl

theorem createChunk_language (tc : String → Nat) (t fn : String) (i : Nat)
    (hd lg : String) : (createChunk tc t fn i hd lg).language = lg := rfl

theorem sentStep_basic (tc : String → Nat) (fn hd lg : String) (s : PackSt)
    (u : String) (h : ∀ e ∈ s.emits, EmitBasic lg e) :
    ∀ e ∈ (sentStep tc fn hd lg s u).emits, EmitBasic lg e := by
  intro e he
  simp only [sentStep] at he
  split at he
  · split at he
    · simp only [List.mem_append, List.mem_singleton] at he
      rcases he with he | he
      · exact h e he
      · subst he
        exact ⟨by assumption, rfl⟩
    · exact h e he
  · exact h e he

theorem paraStep_basic (tc : String → Nat) (fn hd lg : String) (s : PackSt)
    (u : String) (h : ∀ e ∈ s.emits, EmitBasic lg e) :
    ∀ e ∈ (paraStep tc fn hd lg s u).emits, EmitBasic lg e := by
  simp only [paraStep]
  split
  · exact foldl_preserve _ (fun s => ∀ e ∈ s.emits, EmitBasic lg e)
      (fun s a hs => sentStep_basic tc fn hd lg s a hs) _ s h
  · intro e he
    split at he
    · split at he
      · simp only [List.mem_append, List.mem_singleton] at he
        rcases he with he | he
        · exact h e he
        · subst he
          exact ⟨by assumption, rfl⟩
      · exact h e he
    · exact h e he

theorem flushSt_basic (tc : String → Nat) (fn hd lg : String) (s : PackSt)
    (h : ∀ e ∈ s.emits, EmitBasic lg e) :
    ∀ e ∈ (flushSt tc fn hd lg s).emits, EmitBasic lg e := by
  intro e he
  simp only [flushSt] at he
  split at he
  · split at he
    · simp only [List.mem_append, List.mem_singleton] at he
      rcases he with he | he
      · exact h e he
      · subst he
        exact ⟨by assumption, rfl⟩
    · exact h e he
  · exact h e he

theorem sectionStep_basic (tc : String → Nat) (fn lg : String)
    (acc : List Emit × Nat) (sec : String × String)
    (h : ∀ e ∈ acc.1, EmitBasic lg e) :
    ∀ e ∈ (sectionStep tc fn lg acc sec).1, EmitBasic lg e := by
  simp only [sectionStep]
  exact flushSt_basic tc fn sec.1 lg _
    (foldl_preserve _ (fun s => ∀ e ∈ s.emits, EmitBasic lg e)
      (fun s a hs => paraStep_basic tc fn sec.1 lg s a hs) _ ⟨[], 0, acc.1, acc.2, false⟩ h)

theorem chunkTextI_basic (tc : String → Nat) (text fn : String) :
    ∀ e ∈ chunkTextI tc text fn,
      EmitBasic (detectLanguage (normalizeText text)) e := by
  simp only [chunkTextI]
  exact foldl_preserve _
    (fun acc : List Emit × Nat =>
      ∀ e ∈ acc.1, EmitBasic (detectLanguage (normalizeText text)) e)
    (fun acc sec hs => sectionStep_basic _ _ _ acc sec hs) _ ([], 0)
    (by intro e he; cases he)

/-! ### Helper lemmas: the `MAX_TOKENS` bound under an additive counter -/

theorem joinSp_singleton (u : String) : joinSp [u] = u := by
  simp [joinSp, List.intercalate]

theorem emit_bound_of_inv (tc : String → Nat) (hadd : TcAdd tc) (fn hd lg : String)
    (s : PackSt) (hne : s.buffer ≠ [])
    (hfresh : s.tainted = false → (s.buffer.map tc).sum ≤ MAX_TOKENS ∨ s.buffer.length ≤ 1) :
    EmitBound tc ⟨createChunk tc (joinSp s.buffer) fn s.idx hd lg, s.buffer, s.tainted⟩ := by
  have htcc : (createChunk tc (joinSp s.buffer) fn s.idx hd lg).tokenCount
      = (s.buffer.map tc).sum := by
    rw [createChunk_tokenCount]
    exact hadd s.buffer hne
  cases hta : s.tainted
  case true =>
    right; right; rfl
  case false =>
    rcases hfresh hta with hle | hlen
    · left
      rw [htcc]
      exact hle
    · obtain ⟨u, hu⟩ : ∃ u, s.buffer = [u] := by
        cases hbuf : s.buffer with
        | nil => exact absurd hbuf hne
        | cons u t =>
          cases t with
          | nil => exact ⟨u, rfl⟩
          | cons v t' => rw [hbuf] at hlen; simp at hlen
      rcases Nat.lt_or_ge MAX_TOKENS (tc u) with hgt | hge
      · right; left; exact ⟨u, hu, hgt⟩
      · left
        rw [htcc, hu]
        simpa using hge

theorem sentStep_inv (tc : String → Nat) (hadd : TcAdd tc) (fn hd lg : String)
    (s : PackSt) (u : String) (h : PackInv tc s) :
    PackInv tc (sentStep tc fn hd lg s u) := by
  obtain ⟨htok, hfresh, hemits⟩ := h
  simp only [sentStep]
  split
  case isTrue hcond =>
    split
    case isTrue hmin =>
      refine ⟨?_, ?_, ?_⟩
      · simp
      · intro hta
        simp at hta
      · intro e he
        simp only [List.mem_append, List.mem_singleton] at he
        rcases he with he | he
        · exact hemits e he
        · subst he
          exact emit_bound_of_inv tc hadd fn hd lg s hcond.2 hfresh
    case isFalse hmin =>
      refine ⟨?_, ?_, ?_⟩
      · simp
      · intro _
        right
        simp
      · simpa using hemits
  case isFalse hcond =>
    refine ⟨?_, ?_, ?_⟩
    · simp [htok]
    · intro hta
      rcases not_and_or.mp hcond with hle | hbe
      · left
        push_neg at hle
        simp only [List.map_append, List.sum_append, List.map_cons, List.map_nil,
          List.sum_cons, List.sum_nil]
        omega
      · right
        simp [not_not.mp hbe]
    · simpa using hemits

theorem paraStep_inv (tc : String → Nat) (hadd : TcAdd tc) (fn hd lg : String)
    (s : PackSt) (u : String) (h : PackInv tc s) :
    PackInv tc (paraStep tc fn hd lg s u) := by
  obtain ⟨htok, hfresh, hemits⟩ := h
  simp only [paraStep]
  split
  · exact foldl_preserve _ (PackInv tc)
      (fun s a hs => sentStep_inv tc hadd fn hd lg s a hs) _ s ⟨htok, hfresh, hemits⟩
  · split
    case isTrue hcond =>
      split
      case isTrue hmin =>
        refine ⟨?_, ?_, ?_⟩
        · simp
        · intro hta
          simp at hta
        · intro e he
          simp only [List.mem_append, List.mem_singleton] at he
          rcases he with he | he
          · exact hemits e he
          · subst he
            exact emit_bound_of_inv tc hadd fn hd lg s hcond.2 hfresh
      case isFalse hmin =>
        refine ⟨?_, ?_, ?_⟩
        · simp [htok]
        · intro hta
          simp at hta
        · simpa using hemits
    case isFalse hcond =>
      refine ⟨?_, ?_, ?_⟩
      · simp [htok]
      · intro hta
        rcases not_and_or.mp hcond with hle | hbe
        · left
          push_neg at hle
          simp only [List.map_append, List.sum_append, List.map_cons, List.map_nil,
            List.sum_cons, List.sum_nil]
          omega
        · right
          simp [not_not.mp hbe]
      · simpa using hemits

theorem flushSt_inv (tc : String → Nat) (hadd : TcAdd tc) (fn hd lg : String)
    (s : PackSt) (h : PackInv tc s) :
    ∀ e ∈ (flushSt tc fn hd lg s).emits, EmitBound tc e := by
  obtain ⟨htok, hfresh, hemits⟩ := h
  intro e he
  simp only [flushSt] at he
  split at he
  case isTrue hne =>
    split at he
    · simp only [List.mem_append, List.mem_singleton] at he
      rcases he with he | he
      · exact hemits e he
      · subst he
        exact emit_bound_of_inv tc hadd fn hd lg s hne hfresh
    · exact hemits e he
  case isFalse hne =>
    exact hemits e he

theorem sectionStep_bound (tc : String → Nat) (hadd : TcAdd tc) (fn lg : String)
    (acc : List Emit × Nat) (sec : String × String)
    (h : ∀ e ∈ acc.1, EmitBound tc e) :
    ∀ e ∈ (sectionStep tc fn lg acc sec).1, EmitBound tc e := by
  simp only [sectionStep]
  exact flushSt_inv tc hadd fn sec.1 lg _
    (foldl_preserve _ (PackInv tc)
      (fun s a hs => paraStep_inv tc hadd fn sec.1 lg s a hs) _
      ⟨[], 0, acc.1, acc.2, false⟩ ⟨rfl, fun _ => Or.inl (by simp [MAX_TOKENS]), h⟩)

theorem chunkTextI_bound (tc : String → Nat) (hadd : TcAdd tc) (text fn : String) :
    ∀ e ∈ chunkTextI tc text fn, EmitBound tc e := by
  simp only [chunkTextI]
  exact foldl_preserve _ (fun acc : List Emit × Nat => ∀ e ∈ acc.1, EmitBound tc e)
    (fun acc sec hs => sectionStep_bound tc hadd _ _ acc sec hs) _ ([], 0)
    (by intro e he; cases he)

/-! ### Helper lemmas: sections whose whole content is under `MIN_TOKENS` -/

theorem paraFold_small (tc : String → Nat) (fn hd lg : String) :
    ∀ (todo : List String) (s : PackSt),
      s.tokens + (todo.map tc).sum < MIN_TOKENS →
      todo.foldl (paraStep tc fn hd lg) s =
        { buffer := s.buffer ++ todo, tokens := s.tokens + (todo.map tc).sum,
          emits := s.emits, idx := s.idx, tainted := s.tainted }
  | [], s, _ => by cases s; simp
  | p :: todo, s, h => by
    have hsmall : s.tokens + (tc p + ((todo.map tc).sum)) < MIN_TOKENS := by
      simpa using h
    have h1 : ¬ tc p > MAX_TOKENS := by
      simp only [MIN_TOKENS] at hsmall
      simp only [MAX_TOKENS]
      omega
    have h2 : ¬ (s.tokens + tc p > MAX_TOKENS ∧ s.buffer ≠ []) := by
      rintro ⟨hgt, -⟩
      simp only [MIN_TOKENS] at hsmall
      simp only [MAX_TOKENS] at hgt
      omega
    simp only [List.foldl_cons]
    have hstep : paraStep tc fn hd lg s p =
        { s with buffer := s.buffer ++ [p], tokens := s.tokens + tc p } := by
      simp only [paraStep, if_neg h1, if_neg h2]
    rw [hstep,
      paraFold_small tc fn hd lg todo _ (by simp only [MIN_TOKENS] at hsmall ⊢; omega)]
    simp only [List.map_cons, List.sum_cons]
    congr 1
    · simp
    · omega

theorem flushSt_drop (tc : String → Nat) (fn hd lg : String) (s : PackSt)
    (h : tc (joinSp s.buffer) < MIN_TOKENS) :
    flushSt tc fn hd lg s = s := by
  simp only [flushSt]
  split
  · rw [if_neg (by omega)]
  · rfl

theorem sectionStep_small (tc : String → Nat) (hadd : TcAdd tc) (fn lg : String)
    (acc : List Emit × Nat) (sec : String × String)
    (hsum : ((splitParagraphs sec.2).map tc).sum < MIN_TOKENS) :
    sectionStep tc fn lg acc sec = acc := by
  simp only [sectionStep]
  rw [paraFold_small tc fn sec.1 lg (splitParagraphs sec.2)
    ⟨[], 0, acc.1, acc.2, false⟩ (by simpa using hsum)]
  by_cases hp : splitParagraphs sec.2 = []
  · simp [flushSt, hp]
  · have hguard : tc (joinSp ((([] : List String) ++ splitParagraphs sec.2))) <
        MIN_TOKENS := by
      rw [List.nil_append, hadd _ hp]
      exact hsum
    rw [flushSt_drop tc fn sec.1 lg _ hguard]

/-! ### Helper lemmas: the concrete counters are additive -/

theorem countA_joinSp : ∀ l : List String, l ≠ [] →
    countA (joinSp l) = (l.map countA).sum
  | [u], _ => by simp [countA, joinSp, List.intercalate, List.intersperse]
  | u :: v :: t, _ => by
    have ih := countA_joinSp (v :: t) (by simp)
    simp only [countA, joinSp, List.intercalate, List.intersperse, List.map_cons,
      List.flatten_cons, List.filter_append, List.length_append, List.sum_cons,
      List.filter_cons] at ih ⊢
    simp at ih ⊢
    omega

theorem tcAdd_tcA : TcAdd tcA := by
  intro l hne
  rw [show tcA = (fun s => 100 * countA s) from rfl]
  simp only
  rw [countA_joinSp l hne, List.sum_map_mul_left]

theorem tcAdd_tcB : TcAdd tcB := by
  intro l hne
  rw [show tcB = (fun s => 110 * countA s) from rfl]
  simp only
  rw [countA_joinSp l hne, List.sum_map_mul_left]

/-! ### Helper lemmas: heading indices and section ranges -/

theorem headingMarks_mem (lines : List String) (i : Nat) :
    ∀ j ∈ headingMarks lines i, j = i := by
  intro j hj
  simp only [headingMarks] at hj
  split at hj
  · cases hj
  · simp only [List.mem_append] at hj
    rcases hj with (hj | hj) | hj <;>
      · split at hj
        · simpa using hj
        · cases hj

theorem flatMap_pairwise_le (f : Nat → List Nat) (hf : ∀ j x, x ∈ f j → x = j) :
    ∀ l : List Nat, l.Pairwise (· ≤ ·) → (l.flatMap f).Pairwise (· ≤ ·)
  | [], _ => by simp
  | j :: l, h => by
    simp only [List.flatMap_cons]
    rw [List.pairwise_append]
    refine ⟨?_, flatMap_pairwise_le f hf l (List.pairwise_cons.mp h).2, ?_⟩
    · exact List.pairwise_of_forall_mem_list (fun x hx y hy => by
        rw [hf j x hx, hf j y hy])
    · intro x hx y hy
      rw [hf j x hx]
      obtain ⟨k, hk, hyk⟩ := List.mem_flatMap.mp hy
      rw [hf k y hyk]
      exact (List.pairwise_cons.mp h).1 k hk

theorem detectHeadings_sorted (text : String) :
    (detectHeadings text).Pairwise (· ≤ ·) := by
  simp only [detectHeadings]
  exact flatMap_pairwise_le _ (headingMarks_mem _) _
    ((List.pairwise_lt_range _).imp Nat.le_of_lt)

theorem detectHeadings_lt (text : String) :
    ∀ j ∈ detectHeadings text, j < (pyLines text).length := by
  intro j hj
  simp only [detectHeadings] at hj
  obtain ⟨i, hi, hji⟩ := List.mem_flatMap.mp hj
  rw [headingMarks_mem _ i j hji]
  exact List.mem_range.mp hi

theorem sectionRanges_start_mem :
    ∀ (hs : List Nat) (n : Nat) (r : Nat × Nat), r ∈ sectionRanges hs n → r.1 ∈ hs
  | [], _, _, hr => by cases hr
  | [a], n, r, hr => by
    simp only [sectionRanges, List.mem_singleton] at hr
    simp [hr]
  | a :: b :: t, n, r, hr => by
    simp only [sectionRanges, List.mem_cons] at hr
    rcases hr with hr | hr
    · simp [hr]
    · exact List.mem_cons_of_mem a (sectionRanges_start_mem (b :: t) n r hr)

theorem sorted_head_le {a : Nat} {t : List Nat}
    (h : (a :: t).Pairwise (· ≤ ·)) : ∀ x ∈ a :: t, a ≤ x := by
  intro x hx
  rcases List.mem_cons.mp hx with rfl | hx
  · exact Nat.le_refl _
  · exact (List.pairwise_cons.mp h).1 x hx

theorem sectionRanges_countP_zero (hs : List Nat) (n j : Nat)
    (h : ∀ x ∈ hs, j < x) :
    (sectionRanges hs n).countP (fun r => decide (r.1 ≤ j) && decide (j < r.2)) = 0 := by
  rw [List.countP_eq_zero]
  intro r hr
  have := h r.1 (sectionRanges_start_mem hs n r hr)
  simp only [Bool.and_eq_true, decide_eq_true_eq]
  rintro ⟨hle, -⟩
  omega

theorem sectionRanges_countP_one :
    ∀ (a : Nat) (t : List Nat) (n j : Nat),
      (a :: t).Pairwise (· ≤ ·) → (∀ x ∈ a :: t, x < n) → a ≤ j → j < n →
      (sectionRanges (a :: t) n).countP
        (fun r => decide (r.1 ≤ j) && decide (j < r.2)) = 1
  | a, [], n, j, _, _, haj, hjn => by
    simp [sectionRanges, List.countP_cons, haj, hjn]
  | a, b :: t, n, j, hsorted, hlt, haj, hjn => by
    simp only [sectionRanges, List.countP_cons]
    by_cases hjb : j < b
    · rw [sectionRanges_countP_zero (b :: t) n j
        (fun x hx => Nat.lt_of_lt_of_le hjb (sorted_head_le (List.pairwise_cons.mp hsorted).2 x hx))]
      simp [haj, hjb]
    · rw [sectionRanges_countP_one b t n j (List.pairwise_cons.mp hsorted).2
        (fun x hx => hlt x (List.mem_cons_of_mem a hx)) (Nat.le_of_not_lt hjb) hjn]
      simp [hjb]

/-! ### Helper lemmas: multiplicity of heading indices -/

theorem headingMarks_length (lines : List String) (i : Nat) :
    (headingMarks lines i).length = rulesFired lines i := by
  simp only [headingMarks, rulesFired]
  split
  · rfl
  · split_ifs <;> simp

theorem count_flatMap_of_eq (f : Nat → List Nat) (hf : ∀ j x, x ∈ f j → x = j) :
    ∀ (l : List Nat), l.Nodup → ∀ i, (l.flatMap f).count i =
      if i ∈ l then (f i).length else 0
  | [], _, i => by simp
  | j :: l, h, i => by
    simp only [List.flatMap_cons, List.count_append]
    rw [count_flatMap_of_eq f hf l (List.Nodup.of_cons h) i]
    by_cases hij : i = j
    · subst hij
      rw [List.count_eq_length.mpr (fun x hx => ((hf i x hx).symm : i = x))]
      have hnotin : i ∉ l := (List.nodup_cons.mp h).1
      simp [hnotin]
    · have hz : (f j).count i = 0 := by
        rw [List.count_eq_zero]
        intro hmem
        exact hij (hf j i hmem)
      simp [hz, hij]

theorem detectHeadings_count (text : String) (i : Nat) :
    (detectHeadings text).count i = rulesFired (pyLines text) i := by
  simp only [detectHeadings]
  rw [count_flatMap_of_eq _ (headingMarks_mem _) _ (List.nodup_range _) i]
  split
  case isTrue h => exact headingMarks_length _ _
  case isFalse h =>
    have hout : (pyLines text).getD i "" = "" :=
      List.getD_eq_default _ _ (Nat.le_of_not_lt (fun hc => h (List.mem_range.mpr hc)))
    simp only [rulesFired]
    rw [hout]
    simp [pyStrip, stripL]

/-! ### Helper lemmas: the `line_counts` dict counts occurrences -/

theorem bump_lookupNat_self : ∀ (d : List (String × Nat)) (k : String),
    lookupNat (bump d k) k = lookupNat d k + 1
  | [], k => by simp [bump, lookupNat, List.lookup]
  | (k', v) :: d, k => by
    by_cases h : k' = k
    · subst h
      simp [bump, lookupNat, List.lookup]
    · have hbeq : (k == k') = false := by
        simp [BEq.beq]
        exact fun hc => h hc.symm
      simp only [bump, if_neg h, lookupNat, List.lookup, hbeq]
      exact bump_lookupNat_self d k

theorem bump_lookupNat_ne : ∀ (d : List (String × Nat)) (k k' : String), k' ≠ k →
    lookupNat (bump d k) k' = lookupNat d k'
  | [], k, k', h => by
    have hbeq : (k' == k) = false := by simpa using h
    simp [bump, lookupNat, List.lookup, hbeq]
  | (k'', v) :: d, k, k', h => by
    by_cases h2 : k'' = k
    · subst h2
      have hbeq : (k' == k'') = false := by simpa using h
      simp [bump, lookupNat, List.lookup, hbeq]
    · simp only [bump, if_neg h2, lookupNat, List.lookup]
      cases hbeq : k' == k''
      · simpa [lookupNat] using bump_lookupNat_ne d k k' h
      · rfl

theorem foldl_stepLC_lookupNat :
    ∀ (ls : List String) (d : List (String × Nat)) (k : String),
      lookupNat (ls.foldl stepLC d) k =
        lookupNat d k + (if k.length < 50 then ls.count k else 0)
  | [], d, k => by simp
  | l :: ls, d, k => by
    simp only [List.foldl_cons]
    rw [foldl_stepLC_lookupNat ls _ k]
    by_cases hkl : l = k
    · subst hkl
      by_cases hlen : l.length < 50
      · simp only [stepLC, if_pos hlen, bump_lookupNat_self, List.count_cons_self]
        omega
      · simp only [stepLC, if_neg hlen]
    · have hcount : (l :: ls).count k = ls.count k := by
        simp [List.count_cons, (show k ≠ l from fun h => hkl h.symm)]
      by_cases hlen : l.length < 50
      · rw [show stepLC d l = bump d l from if_pos hlen,
          bump_lookupNat_ne d l k (fun hc => hkl hc.symm), hcount]
      · rw [show stepLC d l = d from if_neg hlen, hcount]

theorem foldl_foldl_flatMap {α β σ : Type _} (g : α → List β) (f : σ → β → σ) :
    ∀ (l : List α) (init : σ),
      l.foldl (fun d x => (g x).foldl f d) init = (l.flatMap g).foldl f init
  | [], _ => rfl
  | x :: l, init => by
    simp only [List.foldl_cons, List.flatMap_cons, List.foldl_append]
    exact foldl_foldl_flatMap g f l _

theorem lineCounts_flat (pages : List String) :
    lineCounts pages = (pages.flatMap pageLines).foldl stepLC [] := by
  rw [← foldl_foldl_flatMap pageLines stepLC pages []]
  rfl

theorem lookupNat_lineCounts (pages : List String) (line : String) :
    lookupNat (lineCounts pages) line =
      if line.length < 50 then occTotal pages line else 0 := by
  rw [lineCounts_flat, foldl_stepLC_lookupNat]
  simp [lookupNat, occTotal]

theorem isHeaderFooter_iff (pages : List String) (line : String) :
    isHeaderFooter pages line = true ↔
      line.length < 50 ∧ 2 * occTotal pages line > pages.length := by
  have hl := lookupNat_lineCounts pages line
  simp only [lookupNat] at hl
  unfold isHeaderFooter
  cases hcase : (lineCounts pages).lookup line with
  | none =>
    rw [hcase] at hl
    simp only [Option.getD_none] at hl
    simp only [Bool.false_eq_true, false_iff]
    rintro ⟨hshort, hgt⟩
    rw [if_pos hshort] at hl
    omega
  | some c =>
    rw [hcase] at hl
    simp only [Option.getD_some] at hl
    by_cases hshort : line.length < 50
    · rw [if_pos hshort] at hl
      subst hl
      simp [hshort]
    · rw [if_neg hshort] at hl
      subst hl
      simp [hshort]

/-! ### Helper lemmas: batch loops and the final-text selection -/

theorem chunkBatch_skip (tc : String → Nat)
    (pre post : List (String × Except String String)) (n e : String) :
    chunkBatch tc (pre ++ (n, Except.error e) :: post) = chunkBatch tc (pre ++ post) := by
  simp only [chunkBatch, List.foldl_append, List.foldl_cons]

theorem extractBatch_abort :
    ∀ (pre : List (String × List String)) (n e : String)
      (post : List (String × Except String (List String))),
      extractBatch (pre.map (fun d => (d.1, Except.ok d.2)) ++ (n, Except.error e) :: post) =
        (pre.map (fun d => (d.1, cleanText d.2)), some n)
  | [], n, e, post => by simp [extractBatch]
  | d :: pre, n, e, post => by
    simp only [List.map_cons, List.cons_append, extractBatch, List.append_eq]
    rw [extractBatch_abort pre n e post]

theorem buildFinalTexts_aux (docs : List (String × String × String × String)) :
    ∀ acc, docs.foldl
        (fun acc d =>
          match selectBest d.2.1 d.2.2.1 d.2.2.2 with
          | some r => acc ++ [(d.1, r)]
          | none => acc) acc
      = acc ++ docs.filterMap (fun d =>
          (selectBest d.2.1 d.2.2.1 d.2.2.2).map (fun r => (d.1, r))) := by
  induction docs with
  | nil => intro acc; simp
  | cons d docs ih =>
    intro acc
    simp only [List.foldl_cons, List.filterMap_cons]
    cases hsel : selectBest d.2.1 d.2.2.1 d.2.2.2 with
    | none => simpa using ih acc
    | some r => simp [ih (acc ++ [(d.1, r)])]

/-! ## The claims -/

/-- C1 counterexample: in the paragraph branch the under-`MIN` buffer is
*not* discarded.  With the counter `tcB` (110 tokens per `a`), a buffer
holding the paragraph `"a"` (110 tokens, joined text under `MIN_TOKENS`)
hits the overflow check on the 660-token paragraph `"aaaaaa"`
(110 + 660 > 700), yet the step keeps the old buffer and appends the new
paragraph, and the end-to-end run emits a 770-token chunk that still
contains the supposedly discarded unit. -/
theorem claimC1_counterexample :
    tcB "aaaaaa" ≤ MAX_TOKENS ∧
    (⟨["a"], 110, [], 0, false⟩ : PackSt).tokens + tcB "aaaaaa" > MAX_TOKENS ∧
    (⟨["a"], 110, [], 0, false⟩ : PackSt).buffer ≠ [] ∧
    tcB (joinSp ["a"]) < MIN_TOKENS ∧
    (paraStep tcB "f" "" "en" ⟨["a"], 110, [], 0, false⟩ "aaaaaa").buffer = ["a", "aaaaaa"] ∧
    (paraStep tcB "f" "" "en" ⟨["a"], 110, [], 0, false⟩ "aaaaaa").tokens = 770 ∧
    (chunkText tcB "a\n\naaaaaa" "f").map Chunk.tokenCount = [770] := by decide

/-- C1 (amended): when a unit would push the running total past
`MAX_TOKENS` with a non-empty buffer whose joined text is under
`MIN_TOKENS`, only the *sentence* branch discards the buffer and resets
packing to an empty buffer and zero total before appending the unit; the
*paragraph* branch keeps the buffer in place, appends the paragraph to it
and accumulates its token count (neither emitting nor resetting). -/
theorem claimC1_amended (tc : String → Nat) (fn hd lg : String) (s : PackSt)
    (u : String) (hover : s.tokens + tc u > MAX_TOKENS) (hne : s.buffer ≠ [])
    (hmin : tc (joinSp s.buffer) < MIN_TOKENS) :
    sentStep tc fn hd lg s u =
      { buffer := [u], tokens := tc u, emits := s.emits, idx := s.idx,
        tainted := false } ∧
    (tc u ≤ MAX_TOKENS →
      paraStep tc fn hd lg s u =
        { buffer := s.buffer ++ [u], tokens := s.tokens + tc u,
          emits := s.emits, idx := s.idx, tainted := true }) := by
  constructor
  · simp only [sentStep, if_pos (And.intro hover hne),
      if_neg (by omega : ¬ tc (joinSp s.buffer) ≥ MIN_TOKENS)]
    simp
  · intro hle
    simp only [paraStep, if_neg (by omega : ¬ tc u > MAX_TOKENS),
      if_pos (And.intro hover hne),
      if_neg (by omega : ¬ tc (joinSp s.buffer) ≥ MIN_TOKENS)]

/-- C1 witness: the amended claim at a concrete state and unit. -/
theorem claimC1_witness :
    sentStep tcB "f" "" "en" ⟨["a"], 110, [], 0, false⟩ "aaaaaa" =
      { buffer := ["aaaaaa"], tokens := tcB "aaaaaa", emits := [], idx := 0,
        tainted := false } ∧
    (tcB "aaaaaa" ≤ MAX_TOKENS →
      paraStep tcB "f" "" "en" ⟨["a"], 110, [], 0, false⟩ "aaaaaa" =
        { buffer := ["a"] ++ ["aaaaaa"], tokens := 110 + tcB "aaaaaa",
          emits := [], idx := 0, tainted := true }) :=
  claimC1_amended tcB "f" "" "en" ⟨["a"], 110, [], 0, false⟩ "aaaaaa"
    (by decide) (by decide) (by decide)

/-- C2 counterexample: with the counter `tcA` (100 tokens per `a`), the
document `"a\n\naaaaaaa"` (paragraphs of 100 and 700 tokens, neither
oversized) produces a single emitted chunk of recorded token count 800 >
`MAX_TOKENS` whose buffer holds two units — so the ceiling is breached by
a chunk that is not a lone oversized unit. -/
theorem claimC2_counterexample :
    (chunkTextI tcA "a\n\naaaaaaa" "f").map (fun e => e.chunk.tokenCount) = [800] ∧
    (chunkTextI tcA "a\n\naaaaaaa" "f").map Emit.buf = [["a", "aaaaaaa"]] ∧
    tcA "a" ≤ MAX_TOKENS ∧ tcA "aaaaaaa" ≤ MAX_TOKENS ∧ MAX_TOKENS < 800 ∧
    (chunkText tcA "a\n\naaaaaaa" "f").map Chunk.tokenCount = [800] := by decide

/-- C2 (amended): under an additive token counter, every emitted chunk's
recorded token count is at most `MAX_TOKENS` *except* when the chunk is a
single unit that alone exceeds the ceiling, or when its buffer was tainted
— seeded with overlap sentences of a previous chunk, or carried forward
past an under-`MIN` overflow in the paragraph branch. -/
theorem claimC2_amended (tc : String → Nat) (hadd : TcAdd tc) (text fn : String) :
    chunkText tc text fn = (chunkTextI tc text fn).map Emit.chunk ∧
    ∀ e ∈ chunkTextI tc text fn,
      e.chunk.tokenCount ≤ MAX_TOKENS ∨
      (∃ u, e.buf = [u] ∧ MAX_TOKENS < tc u) ∨ e.tainted = true :=
  ⟨rfl, fun e he => chunkTextI_bound tc hadd text fn e he⟩

/-- C2 witness: the amended claim at a concrete run. -/
theorem claimC2_witness :
    (⟨createChunk tcA "aa" "f" 0 "" "en", ["aa"], false⟩ : Emit).chunk.tokenCount
        ≤ MAX_TOKENS ∨
    (∃ u, (⟨createChunk tcA "aa" "f" 0 "" "en", ["aa"], false⟩ : Emit).buf = [u] ∧
      MAX_TOKENS < tcA u) ∨
    (⟨createChunk tcA "aa" "f" 0 "" "en", ["aa"], false⟩ : Emit).tainted = true :=
  (claimC2_amended tcA tcAdd_tcA "aa" "f").2 _ (by decide)

/-- C3: every emitted chunk's recorded token count is at least
`MIN_TOKENS`; a section whose units total under `MIN_TOKENS` contributes
no chunks at all (under an additive counter); and an end-of-section buffer
whose joined text is under `MIN_TOKENS` is dropped by the flush. -/
theorem claimC3 :
    (∀ (tc : String → Nat) (text fn : String), ∀ c ∈ chunkText tc text fn,
      MIN_TOKENS ≤ c.tokenCount) ∧
    (∀ (tc : String → Nat), TcAdd tc → ∀ (fn lg : String) (acc : List Emit × Nat)
      (sec : String × String), ((splitParagraphs sec.2).map tc).sum < MIN_TOKENS →
      sectionStep tc fn lg acc sec = acc) ∧
    (∀ (tc : String → Nat) (fn hd lg : String) (s : PackSt),
      tc (joinSp s.buffer) < MIN_TOKENS → flushSt tc fn hd lg s = s) := by
  refine ⟨?_, ?_, ?_⟩
  · intro tc text fn c hc
    obtain ⟨e, he, rfl⟩ := List.mem_map.mp hc
    exact (chunkTextI_basic tc text fn e he).1
  · intro tc hadd fn lg acc sec hsum
    exact sectionStep_small tc hadd fn lg acc sec hsum
  · intro tc fn hd lg s h
    exact flushSt_drop tc fn hd lg s h

/-- C3 witness: the three parts at concrete inputs. -/
theorem claimC3_witness :
    MIN_TOKENS ≤ (createChunk tcA "aa" "f" 0 "" "en").tokenCount ∧
    sectionStep tcA "f" "en" ([], 0) ("", "a") = ([], 0) ∧
    flushSt tcA "f" "" "en" ⟨["a"], 100, [], 0, false⟩ = ⟨["a"], 100, [], 0, false⟩ :=
  ⟨claimC3.1 tcA "aa" "f" _ (by decide),
   claimC3.2.1 tcA tcAdd_tcA "f" "en" ([], 0) ("", "a") (by decide),
   claimC3.2.2 tcA "f" "" "en" ⟨["a"], 100, [], 0, false⟩ (by decide)⟩

/-- C4 counterexample: in `"intro\n\nHEAD\nbody"` the only detected
heading is line 2, the built sections start there, and line 0 (`"intro"`)
— a line before the first heading — is covered by no section, refuting
exhaustive coverage. -/
theorem claimC4_counterexample :
    detectHeadings "intro\n\nHEAD\nbody" ≠ [] ∧
    (pyLines "intro\n\nHEAD\nbody").length = 4 ∧
    (sectionRanges (detectHeadings "intro\n\nHEAD\nbody")
      (pyLines "intro\n\nHEAD\nbody").length).countP
        (fun r => decide (r.1 ≤ 0) && decide (0 < r.2)) = 0 ∧
    buildSections "intro\n\nHEAD\nbody" = [("HEAD", "HEAD\nbody")] := by decide

/-- C4 (amended): when headings are detected, the section line ranges
partition the lines from the *first detected heading* to the end of the
document — every such line lies in exactly one range, while every line
before the first heading lies in none; with no headings the whole text is
a single section with empty heading. -/
theorem claimC4_amended (text : String) :
    (∀ a t, detectHeadings text = a :: t →
      (∀ j, a ≤ j → j < (pyLines text).length →
        (sectionRanges (detectHeadings text) (pyLines text).length).countP
          (fun r => decide (r.1 ≤ j) && decide (j < r.2)) = 1) ∧
      (∀ j, j < a →
        (sectionRanges (detectHeadings text) (pyLines text).length).countP
          (fun r => decide (r.1 ≤ j) && decide (j < r.2)) = 0)) ∧
    (detectHeadings text = [] → buildSections text = [("", text)]) := by
  constructor
  · intro a t hhead
    have hsorted := detectHeadings_sorted text
    have hlt := detectHeadings_lt text
    rw [hhead] at hsorted hlt ⊢
    constructor
    · intro j haj hjn
      exact sectionRanges_countP_one a t _ j hsorted hlt haj hjn
    · intro j hja
      exact sectionRanges_countP_zero (a :: t) _ j
        (fun x hx => Nat.lt_of_lt_of_le hja (sorted_head_le hsorted x hx))
  · intro hempty
    simp [buildSections, hempty]

/-- C4 witness: the amended claim at concrete documents. -/
theorem claimC4_witness :
    (sectionRanges (detectHeadings "intro\n\nHEAD\nbody")
      (pyLines "intro\n\nHEAD\nbody").length).countP
        (fun r => decide (r.1 ≤ 3) && decide (3 < r.2)) = 1 ∧
    buildSections "aa" = [("", "aa")] :=
  ⟨((claimC4_amended "intro\n\nHEAD\nbody").1 2 [] (by decide)).1 3 (by decide)
      (by decide),
   (claimC4_amended "aa").2 (by decide)⟩

/-- C5 counterexample: the stripped line `"1. ABC"` satisfies both the
numbered-heading rule and the upper-case rule, and `detect_headings`
records index 0 twice — there is no deduplication. -/
theorem claimC5_counterexample :
    (detectHeadings "1. ABC").count 0 = 2 ∧
    headingRule2 (pyLines "1. ABC") 0 = true ∧
    headingRule3 (pyLines "1. ABC") 0 = true := by decide

/-- C5 (amended): `detect_headings` records each line index once *per
satisfied rule* (so up to three times), and the returned index list is
non-decreasing. -/
theorem claimC5_amended (text : String) (i : Nat) :
    (detectHeadings text).count i = rulesFired (pyLines text) i ∧
    (detectHeadings text).Pairwise (· ≤ ·) :=
  ⟨detectHeadings_count text i, detectHeadings_sorted text⟩

/-- C6 counterexample: with pages `["X\nX\nBody", "Other"]` the line `"X"`
occurs on only one of two pages (page-frequency 50 %, not above the
threshold), yet its *two occurrences* make the dict count 2 > 1 and
`clean_text` removes it — the code counts occurrences, not pages. -/
theorem claimC6_counterexample :
    cleanText ["X\nX\nBody", "Other"] = "Body\n\nOther" ∧
    cleanTextSpec ["X\nX\nBody", "Other"] = "X\nX\nBody\n\nOther" ∧
    isHeaderFooter ["X\nX\nBody", "Other"] "X" = true ∧
    isHeaderFooterSpec ["X\nX\nBody", "Other"] "X" = false := by decide

/-- C6 (amended): a trimmed line is treated as boilerplate exactly when it
has fewer than 50 characters and its *total occurrence count* across all
pages (repeats within a page each counted) exceeds 50 % of the page
count; the specification's two-page `"Header"` example behaves as
described. -/
theorem claimC6_amended :
    (∀ (pages : List String) (line : String),
      isHeaderFooter pages line = true ↔
        line.length < 50 ∧ 2 * occTotal pages line > pages.length) ∧
    cleanText ["Header\nBody A.\n", "Header\nBody B.\n"] = "Body A.\n\nBody B." :=
  ⟨isHeaderFooter_iff, by decide⟩

/-- C7: per document, the strategy with the strictly greatest word count
wins; on ties the earlier of `method1 > method2 > method3` is kept
(Python's `max` keeps the first maximal item of the insertion-ordered
candidates); a document whose best word count is zero is skipped, and the
batch output is exactly the per-document selections with skipped
documents omitted. -/
theorem claimC7 :
    (∀ t1 t2 t3 : String, selectBest t1 t2 t3 =
      if countWords t1 = 0 ∧ countWords t2 = 0 ∧ countWords t3 = 0 then none
      else if countWords t2 ≤ countWords t1 ∧ countWords t3 ≤ countWords t1 then
        some (Method.method1, t1)
      else if countWords t1 < countWords t2 ∧ countWords t3 ≤ countWords t2 then
        some (Method.method2, t2)
      else some (Method.method3, t3)) ∧
    (∀ docs : List (String × String × String × String),
      buildFinalTexts docs = docs.filterMap (fun d =>
        (selectBest d.2.1 d.2.2.1 d.2.2.2).map (fun r => (d.1, r)))) := by
  constructor
  · intro t1 t2 t3
    simp only [selectBest, List.foldl_cons, List.foldl_nil]
    split_ifs <;> first | rfl | omega | (dsimp only at *; omega)
  · intro docs
    simp only [buildFinalTexts]
    simpa using buildFinalTexts_aux docs []

/-- C8 counterexample: a failing first document makes the extraction batch
re-raise (`raise  # Stop on first error`): the second document — which on
its own would be processed and written — is never processed, refuting the
claim that every batch entry point continues after a failure (chunking
does continue). -/
theorem claimC8_counterexample :
    extractBatch [("a", Except.error "boom"), ("b", Except.ok ["tt"])] = ([], some "a") ∧
    extractBatch [("b", Except.ok ["tt"])] = ([("b", "")], none) ∧
    chunkBatch tcA [("a", Except.error "boom"), ("b", Except.ok "aa")] =
      chunkText tcA "aa" "b" := by decide

/-- C8 (amended): the chunking batch isolates failures — a failing
document is skipped and the loop continues exactly as if the document
were absent; the extraction batch instead stops at the first failing
document, processing only the error-free leading documents and leaving
everything after the failure unprocessed. -/
theorem claimC8_amended :
    (∀ (tc : String → Nat) (pre post : List (String × Except String String))
      (n e : String),
      chunkBatch tc (pre ++ (n, Except.error e) :: post) = chunkBatch tc (pre ++ post)) ∧
    (∀ (pre : List (String × List String)) (n e : String)
      (post : List (String × Except String (List String))),
      extractBatch (pre.map (fun d => (d.1, Except.ok d.2)) ++ (n, Except.error e) :: post) =
        (pre.map (fun d => (d.1, cleanText d.2)), some n)) :=
  ⟨chunkBatch_skip, extractBatch_abort⟩

/-- C9 counterexample: `"؟؟ab"` has two alphabetic characters, neither in
the Arabic block (the two `؟` are Arabic-block punctuation, not
alphabetic), so the claimed alphabetic-numerator rule yields `"en"`; the
code counts *all* Arabic-block characters and returns `"ar"`. -/
theorem claimC9_counterexample :
    detectLanguage "؟؟ab" = "ar" ∧
    detectLanguageSpec "؟؟ab" = "en" ∧
    ("؟؟ab".data.filter (fun c => pyIsAlpha c && '؀' ≤ c && c ≤ 'ۿ')).length = 0 ∧
    alphaCount "؟؟ab" = 2 := by decide

/-- C9 (amended): for text with at least one alphabetic character,
`detect_language` returns `"ar"` exactly when the fraction — over all
alphabetic characters — of *all characters lying in U+0600–U+06FF*
(alphabetic or not) exceeds 3/10. -/
theorem claimC9_amended (text : String) (h : 0 < alphaCount text) :
    detectLanguage text = "ar" ↔
      (3 : ℚ) / 10 < (arabicBlockCount text : ℚ) / (alphaCount text : ℚ) := by
  have hne : text ≠ "" := by
    intro he
    subst he
    simp [alphaCount] at h
  have ht0 : ¬ alphaCount text = 0 := by omega
  have htQ : (0 : ℚ) < (alphaCount text : ℚ) := by exact_mod_cast h
  simp only [detectLanguage, if_neg hne, if_neg ht0]
  constructor
  · intro har
    by_cases hc : 10 * arabicBlockCount text > 3 * alphaCount text
    · rw [div_lt_div_iff₀ (by norm_num) htQ]
      exact_mod_cast (by omega : 3 * alphaCount text < arabicBlockCount text * 10)
    · rw [if_neg hc] at har
      simp at har
  · intro hlt
    rw [div_lt_div_iff₀ (by norm_num) htQ] at hlt
    have hn : 3 * alphaCount text < arabicBlockCount text * 10 := by exact_mod_cast hlt
    rw [if_pos (by omega)]

/-- C9 witness: the amended claim at a concrete Arabic text. -/
theorem claimC9_witness : detectLanguage "صصص" = "ar" := by
  have h1 : arabicBlockCount "صصص" = 3 := by decide
  have h2 : alphaCount "صصص" = 3 := by decide
  exact (claimC9_amended "صصص" (by decide)).mpr (by rw [h1, h2]; norm_num)

/-- C10: every chunk of a document records the single language tag
computed once from the full normalised document text before segmentation;
no per-section or per-chunk recomputation occurs. -/
theorem claimC10 (tc : String → Nat) (text fn : String) :
    ∀ c ∈ chunkText tc text fn, c.language = detectLanguage (normalizeText text) := by
  intro c hc
  obtain ⟨e, he, rfl⟩ := List.mem_map.mp hc
  exact (chunkTextI_basic tc text fn e he).2

/-- C10 witness: the claim at a concrete document and chunk. -/
theorem claimC10_witness :
    (createChunk tcA "aa" "f" 0 "" "en").language =
      detectLanguage (normalizeText "aa") :=
  claimC10 tcA "aa" "f" _ (by decide)
